import Mathlib

/-!
Verification of the url_shortener repository's core: short-code generation and
validation (`pkg/shotener/shortener.go`), the repository layer
(`internal/repository`, embedded from its Go source), and the resolution
service (`internal/service/url_service.go`) together with the redirect
handler's visit-recording call site (`internal/handler/url_handler.go`).

Modelling conventions:
- Go `time.Time` instants and `time.Duration` values are both embedded as
  `Int` nanoseconds; `time.Until(e)` at instant `now` is `e - now`, and
  `t.Before(now)` is `t < now`.
- Go strings are treated through their character sequences; the short-code
  alphabet is ASCII, where Go's byte-length agrees with the character count.
- Fallible Go calls return `Except`; the store and the random source are
  passed in as function parameters, mirroring the Go interfaces
  (`repository.URLRepository`, `crypto/rand`).
- Fire-and-forget effects (the async visit-count increment, cache writes)
  are returned explicitly as effect records so frame properties can be stated.
-/

namespace UrlShortener

instance {ε α : Type} [DecidableEq ε] [DecidableEq α] : DecidableEq (Except ε α) := fun x y =>
  match x, y with
  | .error a, .error b =>
    if h : a = b then .isTrue (by rw [h]) else .isFalse (fun hc => by cases hc; exact h rfl)
  | .ok a, .ok b =>
    if h : a = b then .isTrue (by rw [h]) else .isFalse (fun hc => by cases hc; exact h rfl)
  | .error _, .ok _ => .isFalse (fun hc => by cases hc)
  | .ok _, .error _ => .isFalse (fun hc => by cases hc)

/-! ## Data model (`internal/model/url.go`) -/

/-- `model.URL` (internal/model/url.go): a shortened URL record. -/
structure URL where
  id : Nat
  originalURL : String
  shortCode : String
  visitCount : Int
  expiresAt : Option Int
  createdByIP : String
  createdAt : Int
deriving DecidableEq, Repr

/-- `model.URLVisit` (internal/model/url.go): one visit to a shortened URL. -/
structure URLVisit where
  urlID : Nat
  ip : String
  userAgent : String
  referer : String
deriving DecidableEq, Repr

/-- `model.CreateURLRequest`. -/
structure CreateURLRequest where
  originalURL : String
  expiresAt : Option Int
  customCode : String
deriving DecidableEq, Repr

/-- `model.CreateURLResponse`. -/
structure CreateURLResponse where
  shortURL : String
  originalURL : String
  shortCode : String
  expiresAt : Option Int
  createdAt : Int
deriving DecidableEq, Repr

/-- `model.GetURLStatsResponse`. -/
structure GetURLStatsResponse where
  shortURL : String
  originalURL : String
  visitCount : Int
  createdAt : Int
  expiresAt : Option Int
deriving DecidableEq, Repr

/-! ## Code generator (`pkg/shotener/shortener.go`) -/

/-- `shortener.CharSet`: the 62-character alphanumeric alphabet. -/
def CharSet : String :=
  "abcdefghijklmnopqrstuvwxyzABCDEFGHIJKLMNOPQRSTUVWXYZ0123456789"

/-- `shortener.DefaultLength`. -/
def DefaultLength : Int := 6

/-- `shortener.Shortener`: carries the configured code length (a Go `int`). -/
structure Shortener where
  length : Int
deriving DecidableEq, Repr

/-- `shortener.NewShortener`: non-positive lengths fall back to the default. -/
def NewShortener (length : Int) : Shortener :=
  if length ≤ 0 then ⟨DefaultLength⟩ else ⟨length⟩

/-- `shortener.IsValidCustomCode`: length between 3 and 20 and every character
drawn from `CharSet`.  Go checks `len(code)` (bytes) and then iterates runes;
since `CharSet` is ASCII, the byte count and the character count coincide on
every string all of whose characters pass the alphabet test, and both versions
return `false` otherwise, so the character-count reading used here is
extensionally the Go function. -/
def IsValidCustomCode (code : String) : Bool :=
  if code.length < 3 || code.length > 20 then false
  else code.data.all (fun c => CharSet.data.contains c)

/-- `CharSet[i]` for an in-range index, as byte indexing into the ASCII
constant (bytes and characters coincide). -/
def charSetAt (i : Fin 62) : Char :=
  CharSet.data.get (Fin.cast (by decide : (62 : Nat) = CharSet.data.length) i)

/-- `shortener.generateRandomString`, inner loop: builds the characters at
positions `i, i+1, ...` (`n` of them).  `src j` models the `j`-th draw of
`rand.Int(rand.Reader, 62)`: a uniform index below 62, or the random source's
failure, which is returned immediately as in the Go loop. -/
def genChars (src : Nat → Except Unit (Fin 62)) : Nat → Nat → Except Unit (List Char)
  | _, 0 => .ok []
  | i, n + 1 =>
    match src i with
    | .error e => .error e
    | .ok idx =>
      match genChars src (i + 1) n with
      | .error e => .error e
      | .ok rest => .ok (charSetAt idx :: rest)

/-- `shortener.generateRandomString`: `length` independent draws from
`CharSet`.  A non-positive Go `int` length runs the loop zero times. -/
def generateRandomString (length : Int) (src : Nat → Except Unit (Fin 62)) :
    Except Unit String :=
  match genChars src 0 length.toNat with
  | .error e => .error e
  | .ok cs => .ok ⟨cs⟩

/-- `Shortener.Generate`: delegates to `generateRandomString` at the
configured length. -/
def Shortener.Generate (s : Shortener) (src : Nat → Except Unit (Fin 62)) :
    Except Unit String :=
  generateRandomString s.length src

/-! ## Repository layer (`internal/repository`, src/unnamed/part_002) -/

/-- The ways `FindByShortCode` fails: the gorm record-not-found error, any
other database error, or the repository's own expiry rejection
("URL has expired"). -/
inductive FindErr
  | notFound
  | storeError
  | expired
deriving DecidableEq, Repr

/-- The expiry test of `FindByShortCode` and the where-clause of
`DeleteExpired`: `expires_at IS NOT NULL AND expires_at < now`
(`url.ExpiresAt != nil && url.ExpiresAt.Before(time.Now())`). -/
def isExpired (u : URL) (now : Int) : Bool :=
  match u.expiresAt with
  | some e => decide (e < now)
  | none => false

/-- `URLRepositoryImpl.FindByShortCode`: the first row with the given
short code (gorm `Where(...).First`), rejected if absent or expired.
The database is modelled as the list of its rows. -/
def FindByShortCode (db : List URL) (now : Int) (shortCode : String) :
    Except FindErr URL :=
  match db.find? (fun u => u.shortCode == shortCode) with
  | none => .error .notFound
  | some u => if isExpired u now then .error .expired else .ok u

/-- `URLRepositoryImpl.DeleteExpired`: deletes rows matching
`expires_at < now AND expires_at IS NOT NULL` and returns `RowsAffected`
(a Go `int64`) together with the surviving rows. -/
def DeleteExpired (db : List URL) (now : Int) : List URL × Int :=
  (db.filter (fun u => !(isExpired u now)),
   ((db.filter (fun u => isExpired u now)).length : Int))

/-! ## Resolution service (`internal/service/url_service.go`) -/

/-- `service.DefaultCacheTTL = 24 * time.Hour`, in nanoseconds. -/
def DefaultCacheTTL : Int := 24 * 60 * 60 * 1000000000

/-- The cache key `fmt.Sprintf("%s%s", CacheKeyPre..., shortCode)` built from
the `"url:"` constant of url_service.go. -/
def cacheKeyFor (shortCode : String) : String := "url:" ++ shortCode

/-- The TTL computation duplicated at url_service.go:92-98 (CreateShortURL)
and url_service.go:142-148 (GetOriginalURL):
`cacheTTL := DefaultCacheTTL; if expiresAt != nil { t := time.Until(expiresAt);
if t > 0 && t < DefaultCacheTTL { cacheTTL = t } }`. -/
def computeCacheTTL (expiresAt : Option Int) (now : Int) : Int :=
  match expiresAt with
  | none => DefaultCacheTTL
  | some e =>
    let expiryTime := e - now
    if 0 < expiryTime && expiryTime < DefaultCacheTTL then expiryTime
    else DefaultCacheTTL

/-- The errors `CreateShortURL` returns, one per `return nil, ...` site:
"invalid custom code", "custom code already in use",
"failed to generate short code", "failed to generate unique short code",
"failed to create URL". -/
inductive CreateErr
  | invalidCode
  | codeInUse
  | genFailed
  | allocationExhausted
  | createFailed
deriving DecidableEq, Repr

/-- The generation loop of url_service.go:63-77, for the running index `i`
and the remaining iterations (`5 - i`): generate a candidate (`gen i`), and
if the repository lookup errors, break out accepting the candidate; if the
lookup succeeds at `i = 4`, fail with the unique-code-exhausted error.  The
fuel-zero branch is unreachable for the actual call `genLoop find gen 0 5`. -/
def genLoop (find : String → Except FindErr URL) (gen : Nat → Except Unit String) :
    Nat → Nat → Except CreateErr String
  | _, 0 => .error .allocationExhausted
  | i, fuel + 1 =>
    match gen i with
    | .error _ => .error .genFailed
    | .ok code =>
      match find code with
      | .error _ => .ok code
      | .ok _ =>
        if i = 4 then .error .allocationExhausted
        else genLoop find gen (i + 1) fuel

/-- The short-code selection of `CreateShortURL` (url_service.go:51-78): the
custom-code branch (validation, then the repository lookup whose error is
answered with the in-use rejection and whose success lets the custom code
through), or the five-try generation loop. -/
def chooseCode (find : String → Except FindErr URL) (gen : Nat → Except Unit String)
    (req : CreateURLRequest) : Except CreateErr String :=
  if req.customCode ≠ "" then
    if !(IsValidCustomCode req.customCode) then .error .invalidCode
    else
      match find req.customCode with
      | .error _ => .error .codeInUse
      | .ok _ => .ok req.customCode
  else genLoop find gen 0 5

/-- The externally visible side effects of `CreateShortURL`: the record
passed to `urlRepo.Create` (none when the call never reaches the write) and
the `cache.SetWithTTL` call `(key, value, ttl)` (none when no cache write is
attempted; the Go code swallows cache-write errors). -/
structure CreateEffects where
  created : Option URL
  cacheSet : Option (String × String × Int)
deriving DecidableEq, Repr

/-- The record `CreateShortURL` builds before handing it to `urlRepo.Create`
(url_service.go:80-85); the database later assigns `id` and `createdAt`. -/
def newURL (req : CreateURLRequest) (ip shortCode : String) : URL :=
  { id := 0, originalURL := req.originalURL, shortCode := shortCode,
    visitCount := 0, expiresAt := req.expiresAt, createdByIP := ip,
    createdAt := 0 }

/-- `URLServiceImpl.CreateShortURL` (url_service.go:47-115).  `find` is the
injected `urlRepo.FindByShortCode`; `create` models `urlRepo.Create`, which
on success assigns the new row's primary key and creation timestamp (gorm
fills `url.ID` and `url.CreatedAt` in place); `gen` is the shortener's
sequence of generated candidates. -/
def CreateShortURL (find : String → Except FindErr URL)
    (create : URL → Except Unit (Nat × Int)) (gen : Nat → Except Unit String)
    (domainName : String) (req : CreateURLRequest) (ip : String) (now : Int) :
    Except CreateErr CreateURLResponse × CreateEffects :=
  match chooseCode find gen req with
  | .error e => (.error e, ⟨none, none⟩)
  | .ok shortCode =>
    let url : URL := newURL req ip shortCode
    match create url with
    | .error _ => (.error .createFailed, ⟨some url, none⟩)
    | .ok (newId, t) =>
      let stored : URL := { url with id := newId, createdAt := t }
      let cacheTTL := computeCacheTTL stored.expiresAt now
      let resp : CreateURLResponse :=
        { shortURL := domainName ++ "/" ++ shortCode,
          originalURL := stored.originalURL, shortCode := shortCode,
          expiresAt := stored.expiresAt, createdAt := stored.createdAt }
      (.ok resp, ⟨some stored, some (cacheKeyFor shortCode, stored.originalURL, cacheTTL)⟩)

/-- Store operations `GetOriginalURL` can issue: the repository lookup and
the (fire-and-forget) visit-count increment. -/
inductive StoreOp
  | findOp (code : String)
  | incVisit (id : Nat)
deriving DecidableEq, Repr

/-- `URLServiceImpl.GetOriginalURL` (url_service.go:118-156).  The cache is
the list of its live key/value entries; a missing key is a `redis.Nil` miss
(a cache error also falls through to the store in the Go code).  Returns the
result, the store operations issued, and the attempted cache write. -/
def GetOriginalURL (cacheState : List (String × String))
    (find : String → Except FindErr URL) (shortCode : String) (now : Int) :
    Except FindErr String × List StoreOp × Option (String × String × Int) :=
  let cacheKey := cacheKeyFor shortCode
  match cacheState.find? (fun kv => kv.1 == cacheKey) with
  | some kv => (.ok kv.2, [], none)
  | none =>
    match find shortCode with
    | .error e => (.error e, [.findOp shortCode], none)
    | .ok url =>
      let cacheTTL := computeCacheTTL url.expiresAt now
      (.ok url.originalURL, [.findOp shortCode, .incVisit url.id],
       some (cacheKey, url.originalURL, cacheTTL))

/-- `URLServiceImpl.RecordVisit` (url_service.go:159-168): builds the
`URLVisit` from the given `urlID` and forwards it to `urlRepo.CreateVisit`.
Returns the outcome together with the visit record that was stored. -/
def RecordVisit (createVisit : URLVisit → Except Unit Unit) (urlID : Nat)
    (ip userAgent referer : String) : Except Unit Unit × URLVisit :=
  let visit : URLVisit := ⟨urlID, ip, userAgent, referer⟩
  (createVisit visit, visit)

/-- `URLServiceImpl.GetURLStats` (url_service.go:171-188). -/
def GetURLStats (find : String → Except FindErr URL)
    (domainName shortCode : String) : Except FindErr GetURLStatsResponse :=
  match find shortCode with
  | .error e => .error e
  | .ok url =>
    .ok { shortURL := domainName ++ "/" ++ shortCode,
          originalURL := url.originalURL, visitCount := url.visitCount,
          createdAt := url.createdAt, expiresAt := url.expiresAt }

/-- `URLServiceImpl.CleanupExpiredURLs` (url_service.go:191-193): delegates
to `urlRepo.DeleteExpired`. -/
def CleanupExpiredURLs (db : List URL) (now : Int) : List URL × Int :=
  DeleteExpired db now

/-! ## Redirect handler (`internal/handler/url_handler.go`) -/

/-- The observable outcome of `URLHandler.RedirectToOriginalURL`: HTTP status,
redirect target, and the visit record dispatched to `RecordVisit` (if any). -/
structure RedirectResult where
  status : Nat
  location : Option String
  recordedVisit : Option URLVisit
deriving DecidableEq, Repr

/-- `URLHandler.RedirectToOriginalURL` (url_handler.go:71-96): resolve via
`GetOriginalURL` (404 on failure), then fetch `GetURLStats` and, on its
success, dispatch `RecordVisit` passing `uint(url.VisitCount)` as the URL id
(the handler's own comment: "Using visit count as URL ID for simplicity"),
then issue the 302 redirect. -/
def RedirectToOriginalURL (cacheState : List (String × String))
    (find : String → Except FindErr URL) (domainName shortCode : String)
    (now : Int) (clientIP userAgent referer : String) : RedirectResult :=
  match (GetOriginalURL cacheState find shortCode now).1 with
  | .error _ => { status := 404, location := none, recordedVisit := none }
  | .ok originalURL =>
    match GetURLStats find domainName shortCode with
    | .error _ =>
      { status := 302, location := some originalURL, recordedVisit := none }
    | .ok stats =>
      let recorded :=
        (RecordVisit (fun _ => .ok ()) stats.visitCount.toNat
          clientIP userAgent referer).2
      { status := 302, location := some originalURL, recordedVisit := some recorded }

/-! ## Specification-side predicates and concrete inputs -/

/-- The spec's availability notion for a candidate code: the store holds no
existing, non-expired record with that code. -/
abbrev codeAvailable (db : List URL) (now : Int) (c : String) : Prop :=
  ∀ u ∈ db, u.shortCode = c → isExpired u now = true

/-- Whether an `Except` value is an error, regardless of the error's kind. -/
def isErr {ε α : Type} : Except ε α → Bool
  | .error _ => true
  | .ok _ => false

/-- Create request with a valid custom code for exercising the custom path. -/
def customReq : CreateURLRequest :=
  { originalURL := "http://example.com/page", expiresAt := none,
    customCode := "mycode" }

/-- A database whose only record has primary key 1 and visit count 7. -/
def visitDB : List URL :=
  [{ id := 1, originalURL := "http://example.com/x", shortCode := "abc",
     visitCount := 7, expiresAt := none, createdByIP := "9.9.9.9",
     createdAt := 0 }]

/-- Create request whose expiration (instant 40) is already in the past at
invocation time 100. -/
def pastExpiryReq : CreateURLRequest :=
  { originalURL := "http://example.com/page", expiresAt := some 40,
    customCode := "" }

/-- A database whose only record for code `abc` expired at instant 50. -/
def expiredDB : List URL :=
  [{ id := 1, originalURL := "http://old.example.com", shortCode := "abc",
     visitCount := 0, expiresAt := some 50, createdByIP := "ip",
     createdAt := 0 }]

/-- A database whose only record holds the non-expired code `taken`. -/
def takenDB : List URL :=
  [{ id := 1, originalURL := "http://example.com/t", shortCode := "taken",
     visitCount := 0, expiresAt := none, createdByIP := "ip", createdAt := 0 }]

/-- A database whose only record expires exactly at instant 100. -/
def borderDB : List URL :=
  [{ id := 2, originalURL := "http://b.example.com", shortCode := "bcd",
     visitCount := 0, expiresAt := some 100, createdByIP := "ip",
     createdAt := 0 }]

/-- Create request without a custom code. -/
def wReq : CreateURLRequest :=
  { originalURL := "http://example.com/p", expiresAt := none, customCode := "" }

/-- A candidate sequence that first hits the taken code, then a fresh one. -/
def wGen : Nat → Except Unit String :=
  fun i => if i = 0 then .ok "taken" else .ok "fresh"

/-! ## Helper lemmas -/

theorem length_filter_partition {α : Type} (p : α → Bool) (l : List α) :
    (l.filter p).length + (l.filter (fun a => !(p a))).length = l.length := by
  induction l with
  | nil => rfl
  | cons a t ih =>
    by_cases h : p a = true
    · simp [List.filter_cons, h]; omega
    · have h' : p a = false := by simpa using h
      simp [List.filter_cons, h']; omega

theorem findByShortCode_error_of_available (db : List URL) (now : Int)
    (c : String) (h : codeAvailable db now c) :
    ∃ e, FindByShortCode db now c = .error e := by
  unfold FindByShortCode
  cases hf : db.find? (fun u => u.shortCode == c) with
  | none => exact ⟨.notFound, rfl⟩
  | some u =>
    have hmem := List.mem_of_find?_eq_some hf
    have hcode : u.shortCode = c := by simpa using List.find?_some hf
    have hexp : isExpired u now = true := h u hmem hcode
    exact ⟨.expired, by simp [hexp]⟩

theorem findByShortCode_ok_of_not_available (db : List URL) (now : Int)
    (c : String) (hnodup : (db.map URL.shortCode).Nodup)
    (h : ¬ codeAvailable db now c) :
    ∃ u, FindByShortCode db now c = .ok u := by
  have h' : ∃ u, u ∈ db ∧ u.shortCode = c ∧ isExpired u now = false := by
    by_contra hc
    apply h
    intro u hu hcode
    by_contra hex
    exact hc ⟨u, hu, hcode, by simpa using hex⟩
  obtain ⟨u0, hu0, hcode0, hexp0⟩ := h'
  unfold FindByShortCode
  cases hf : db.find? (fun u => u.shortCode == c) with
  | none =>
    exfalso
    have := List.find?_eq_none.mp hf u0 hu0
    simp [hcode0] at this
  | some u =>
    have hmem := List.mem_of_find?_eq_some hf
    have hcode : u.shortCode = c := by simpa using List.find?_some hf
    have heq : u = u0 :=
      List.inj_on_of_nodup_map hnodup hmem hu0 (by rw [hcode, hcode0])
    subst heq
    exact ⟨u, by simp [hexp0]⟩

theorem genLoop_gen_agree (find : String → Except FindErr URL)
    (gen gen' : Nat → Except Unit String) :
    ∀ fuel i, (∀ j, j < i + fuel → gen j = gen' j) →
      genLoop find gen i fuel = genLoop find gen' i fuel := by
  intro fuel
  induction fuel with
  | zero => intro i _; rfl
  | succ n ih =>
    intro i h
    have hgi : gen' i = gen i := (h i (by omega)).symm
    cases hg : gen i with
    | error e => simp [genLoop, hgi, hg]
    | ok code =>
      cases hf : find code with
      | error e => simp [genLoop, hgi, hg, hf]
      | ok u =>
        by_cases h4 : i = 4
        · subst h4; simp [genLoop, hgi, hg, hf]
        · simp only [genLoop, hgi, hg, hf, if_neg h4]
          exact ih (i + 1) (fun j hj => h j (by omega))

theorem genLoop_first_available (find : String → Except FindErr URL)
    (gen : Nat → Except Unit String) :
    ∀ k fuel i c, k < fuel → i + fuel = 5 →
      (∀ j, j < k → ∃ cj u, gen (i + j) = .ok cj ∧ find cj = .ok u) →
      gen (i + k) = .ok c → (∃ e, find c = .error e) →
      genLoop find gen i fuel = .ok c := by
  intro k
  induction k with
  | zero =>
    intro fuel i c hk hfuel _ hgen hfind
    obtain ⟨m, rfl⟩ : ∃ m, fuel = m + 1 := ⟨fuel - 1, by omega⟩
    obtain ⟨e, he⟩ := hfind
    rw [Nat.add_zero] at hgen
    simp only [genLoop, hgen, he]
  | succ k ih =>
    intro fuel i c hk hfuel hcoll hgen hfind
    obtain ⟨m, rfl⟩ : ∃ m, fuel = m + 1 := ⟨fuel - 1, by omega⟩
    obtain ⟨c0, u0, hg0, hf0⟩ := hcoll 0 (by omega)
    rw [Nat.add_zero] at hg0
    have h4 : ¬ (i = 4) := by omega
    simp only [genLoop, hg0, hf0, if_neg h4]
    have hgen' : gen ((i + 1) + k) = .ok c := by
      rw [show (i + 1) + k = i + (k + 1) by omega]; exact hgen
    refine ih m (i + 1) c (by omega) (by omega) ?_ hgen' hfind
    intro j hj
    obtain ⟨cj, uj, hgj, hfj⟩ := hcoll (j + 1) (by omega)
    refine ⟨cj, uj, ?_, hfj⟩
    rw [show (i + 1) + j = i + (j + 1) by omega]; exact hgj

theorem genLoop_exhausted (find : String → Except FindErr URL)
    (gen : Nat → Except Unit String) :
    ∀ fuel i, i + fuel = 5 →
      (∀ j, i ≤ j → j < 5 → ∃ cj u, gen j = .ok cj ∧ find cj = .ok u) →
      genLoop find gen i fuel = .error .allocationExhausted := by
  intro fuel
  induction fuel with
  | zero => intro i _ _; rfl
  | succ m ih =>
    intro i hfuel hcoll
    obtain ⟨ci, ui, hgi, hfi⟩ := hcoll i (by omega) (by omega)
    by_cases h4 : i = 4
    · simp only [genLoop, hgi, hfi, if_pos h4]
    · simp only [genLoop, hgi, hfi, if_neg h4]
      exact ih (i + 1) (by omega) (fun j h1 h2 => hcoll j (by omega) h2)

theorem genChars_spec (src : Nat → Except Unit (Fin 62)) :
    ∀ n i cs, genChars src i n = .ok cs →
      cs.length = n ∧ ∀ c ∈ cs, c ∈ CharSet.data := by
  intro n
  induction n with
  | zero =>
    intro i cs h
    simp only [genChars] at h
    cases h
    exact ⟨rfl, by simp⟩
  | succ n ih =>
    intro i cs h
    simp only [genChars] at h
    cases hs : src i with
    | error e => rw [hs] at h; simp at h
    | ok idx =>
      rw [hs] at h
      cases hg : genChars src (i + 1) n with
      | error e => rw [hg] at h; simp at h
      | ok rest =>
        rw [hg] at h
        simp only at h
        cases h
        obtain ⟨hl, hm⟩ := ih (i + 1) rest hg
        refine ⟨by simp [hl], ?_⟩
        intro c hc
        rcases List.mem_cons.mp hc with hc | hc
        · subst hc
          unfold charSetAt
          exact List.get_mem _ _ _
        · exact hm c hc

theorem genLoop_find_shape (find₁ find₂ : String → Except FindErr URL)
    (gen : Nat → Except Unit String)
    (hshape : ∀ s, isErr (find₁ s) = isErr (find₂ s)) :
    ∀ fuel i, genLoop find₁ gen i fuel = genLoop find₂ gen i fuel := by
  intro fuel
  induction fuel with
  | zero => intro i; rfl
  | succ n ih =>
    intro i
    cases hg : gen i with
    | error e => simp [genLoop, hg]
    | ok code =>
      have hs := hshape code
      cases h1 : find₁ code with
      | error e =>
        cases h2 : find₂ code with
        | error e2 => simp [genLoop, hg, h1, h2]
        | ok u2 => rw [h1, h2] at hs; simp [isErr] at hs
      | ok u =>
        cases h2 : find₂ code with
        | error e2 => rw [h1, h2] at hs; simp [isErr] at hs
        | ok u2 =>
          by_cases h4 : i = 4
          · subst h4; simp [genLoop, hg, h1, h2]
          · simp only [genLoop, hg, h1, h2, if_neg h4]; exact ih (i + 1)

/-! ## Claim theorems -/

/-- C7: `IsValidCustomCode` returns `true` iff the code's length is at least
3 and at most 20 and every character of the code belongs to the 62-character
alphanumeric alphabet. -/
theorem isValidCustomCode_iff (code : String) :
    IsValidCustomCode code = true ↔
      3 ≤ code.length ∧ code.length ≤ 20 ∧ ∀ c ∈ code.data, c ∈ CharSet.data := by
  unfold IsValidCustomCode
  by_cases h3 : code.length < 3
  · simp only [h3]
    simp
    intro h
    omega
  · by_cases h20 : code.length > 20
    · simp only [h20]
      simp
      intro h h'
      omega
    · simp only [h3, h20]
      simp [List.all_eq_true, List.elem_iff]
      constructor
      · intro h
        exact ⟨by omega, by omega, h⟩
      · intro h
        exact h.2.2

/-- C6: `CleanupExpiredURLs` retains a record iff it has no expiration in the
strict past of the invocation time, returns as its count exactly the number
of records it removed, and never deletes a record whose expiration is null. -/
theorem cleanup_deletes_exactly_expired (db : List URL) (now : Int) :
    (∀ u ∈ db,
      (u ∈ (CleanupExpiredURLs db now).1 ↔ ¬ ∃ e, u.expiresAt = some e ∧ e < now))
    ∧ (CleanupExpiredURLs db now).2 =
        (db.length : Int) - ((CleanupExpiredURLs db now).1.length : Int)
    ∧ (∀ u ∈ db, u.expiresAt = none → u ∈ (CleanupExpiredURLs db now).1) := by
  refine ⟨?_, ?_, ?_⟩
  · intro u hu
    simp only [CleanupExpiredURLs, DeleteExpired, List.mem_filter, hu, true_and]
    cases hex : u.expiresAt with
    | none => simp [isExpired, hex]
    | some e => by_cases hlt : e < now <;> simp [isExpired, hex, hlt]
  · have := length_filter_partition (fun u => isExpired u now) db
    simp only [CleanupExpiredURLs, DeleteExpired]
    omega
  · intro u hu hnone
    simp only [CleanupExpiredURLs, DeleteExpired, List.mem_filter, hu, true_and]
    simp [isExpired, hnone]

/-- C9: when the short code's entry is present in the cache, `GetOriginalURL`
returns the cached value and issues no store operation (no lookup, no
visit-count increment, no write) and no cache write. -/
theorem getOriginalURL_cache_hit (cacheState : List (String × String))
    (find : String → Except FindErr URL) (shortCode : String) (now : Int)
    (kv : String × String)
    (h : cacheState.find? (fun p => p.1 == cacheKeyFor shortCode) = some kv) :
    GetOriginalURL cacheState find shortCode now = (.ok kv.2, [], none) := by
  unfold GetOriginalURL
  dsimp only
  rw [h]

/-- Witness for C9 at a concrete cache state. -/
theorem getOriginalURL_cache_hit_witness :
    ([("url:abc", "http://x")].find?
        (fun p => p.1 == cacheKeyFor "abc") = some ("url:abc", "http://x"))
    ∧ GetOriginalURL [("url:abc", "http://x")] (FindByShortCode [] 0) "abc" 0
        = (.ok "http://x", [], none) :=
  ⟨by decide,
   getOriginalURL_cache_hit [("url:abc", "http://x")] (FindByShortCode [] 0)
     "abc" 0 ("url:abc", "http://x") (by decide)⟩

/-- C1 (code-bug evidence): with an empty store the valid custom code
`mycode` is not in use — the repository lookup reports not-found — yet
`CreateShortURL` rejects the request with the in-use error and never writes:
url_service.go:56-59 answers a failed lookup (code absent) with
"custom code already in use" and lets the code through when the lookup finds
a live record. -/
theorem createShortURL_rejects_unused_custom_code :
    IsValidCustomCode "mycode" = true
    ∧ FindByShortCode [] 0 "mycode" = .error .notFound
    ∧ CreateShortURL (FindByShortCode [] 0) (fun _ => .ok (1, 0))
        (fun _ => .error ()) "http://sho.rt" customReq "1.1.1.1" 0
        = (.error .codeInUse, ⟨none, none⟩) :=
  ⟨by decide, by decide, by decide⟩

/-- C2 (code-bug evidence): resolving `abc` against a store whose only record
has primary key 1 and visit count 7 makes the redirect handler record a visit
whose `urlID` is 7 — the visit count — not the durable id 1
(url_handler.go:87 passes `uint(url.VisitCount)` as the URL id). -/
theorem redirect_records_visit_count_as_id :
    FindByShortCode visitDB 100 "abc"
      = .ok { id := 1, originalURL := "http://example.com/x", shortCode := "abc",
              visitCount := 7, expiresAt := none, createdByIP := "9.9.9.9",
              createdAt := 0 }
    ∧ (RedirectToOriginalURL [] (FindByShortCode visitDB 100) "http://sho.rt"
        "abc" 100 "2.2.2.2" "agent" "ref").recordedVisit
        = some ⟨7, "2.2.2.2", "agent", "ref"⟩
    ∧ (7 : Nat) ≠ 1 :=
  ⟨by decide, by decide, by decide⟩

/-- C3 (code-bug evidence): the TTL rule holds when there is no expiration
(24-hour default) and for a future expiration (minimum, e.g. 10 minutes),
but when the time remaining is non-positive the record IS cached, with the
full 24-hour default TTL: `CreateShortURL` at instant 100 with expiration 40
writes the cache entry with `DefaultCacheTTL`, and `GetOriginalURL` does the
same for a record whose expiration equals the current instant. -/
theorem cacheTTL_non_positive_still_cached :
    computeCacheTTL none 0 = DefaultCacheTTL
    ∧ computeCacheTTL (some (600 * 1000000000)) 0 = 600 * 1000000000
    ∧ ((40 : Int) - 100 ≤ 0
       ∧ (CreateShortURL (FindByShortCode [] 100) (fun _ => .ok (1, 100))
            (fun _ => .ok "zzzzzz") "http://sho.rt" pastExpiryReq
            "1.1.1.1" 100).2.cacheSet
          = some ("url:zzzzzz", "http://example.com/page", DefaultCacheTTL))
    ∧ ((100 : Int) - 100 ≤ 0
       ∧ (GetOriginalURL [] (FindByShortCode borderDB 100) "bcd" 100).2.2
          = some ("url:bcd", "http://b.example.com", DefaultCacheTTL)) :=
  ⟨by decide, by decide, ⟨by decide, by decide⟩, ⟨by decide, by decide⟩⟩

/-- C4 (code-bug evidence): the record for `abc` is expired at instant 100 —
the store lookup itself says so — yet with a stale cache entry present
`GetOriginalURL` returns the cached URL instead of not-found: the cache-hit
path (url_service.go:121-125) returns immediately without re-checking
`expiresAt`. -/
theorem getOriginalURL_serves_stale_cache_for_expired :
    FindByShortCode expiredDB 100 "abc" = .error .expired
    ∧ GetOriginalURL [("url:abc", "http://old.example.com")]
        (FindByShortCode expiredDB 100) "abc" 100
        = (.ok "http://old.example.com", [], none) :=
  ⟨by decide, by decide⟩

/-- C5: on the no-custom-code path, only the first five candidates are ever
consulted; the first generated candidate for which the store holds no
non-expired record is accepted and becomes the short code of the written
record; and if all five candidates collide with live records the call fails
with the allocation-exhausted error and nothing is written. -/
theorem createShortURL_generated_path
    (db : List URL) (now : Int) (create : URL → Except Unit (Nat × Int))
    (gen : Nat → Except Unit String) (domainName : String)
    (req : CreateURLRequest) (ip : String)
    (hcustom : req.customCode = "")
    (hnodup : (db.map URL.shortCode).Nodup) :
    (∀ gen' : Nat → Except Unit String, (∀ j, j < 5 → gen j = gen' j) →
      CreateShortURL (FindByShortCode db now) create gen domainName req ip now =
        CreateShortURL (FindByShortCode db now) create gen' domainName req ip now)
    ∧ (∀ k c, k < 5 →
        (∀ j, j < k → ∃ cj, gen j = .ok cj ∧ ¬ codeAvailable db now cj) →
        gen k = .ok c → codeAvailable db now c →
        chooseCode (FindByShortCode db now) gen req = .ok c)
    ∧ (∀ c, chooseCode (FindByShortCode db now) gen req = .ok c →
        ∃ u, (CreateShortURL (FindByShortCode db now) create gen domainName
                req ip now).2.created = some u ∧ u.shortCode = c)
    ∧ ((∀ j, j < 5 → ∃ cj, gen j = .ok cj ∧ ¬ codeAvailable db now cj) →
        CreateShortURL (FindByShortCode db now) create gen domainName req ip now
          = (.error .allocationExhausted, ⟨none, none⟩)) := by
  have hchoose : ∀ g : Nat → Except Unit String,
      chooseCode (FindByShortCode db now) g req
        = genLoop (FindByShortCode db now) g 0 5 := by
    intro g; unfold chooseCode; simp [hcustom]
  refine ⟨?_, ?_, ?_, ?_⟩
  · intro gen' hagree
    unfold CreateShortURL
    rw [hchoose gen, hchoose gen',
      genLoop_gen_agree (FindByShortCode db now) gen gen' 5 0
        (fun j hj => hagree j (by omega))]
  · intro k c hk hcoll hgen havail
    rw [hchoose gen]
    refine genLoop_first_available (FindByShortCode db now) gen k 5 0 c hk
      (by omega) ?_ (by rw [Nat.zero_add]; exact hgen)
      (findByShortCode_error_of_available db now c havail)
    intro j hj
    obtain ⟨cj, hgj, hnav⟩ := hcoll j hj
    obtain ⟨uj, huj⟩ := findByShortCode_ok_of_not_available db now cj hnodup hnav
    exact ⟨cj, uj, by rw [Nat.zero_add]; exact hgj, huj⟩
  · intro c hc
    unfold CreateShortURL
    rw [hc]
    dsimp only
    cases hval : create (newURL req ip c) with
    | error e => exact ⟨_, rfl, rfl⟩
    | ok p =>
      obtain ⟨a, b⟩ := p
      exact ⟨_, rfl, rfl⟩
  · intro hall
    have hex : genLoop (FindByShortCode db now) gen 0 5
        = .error .allocationExhausted := by
      refine genLoop_exhausted (FindByShortCode db now) gen 5 0 (by omega) ?_
      intro j _ hj
      obtain ⟨cj, hgj, hnav⟩ := hall j hj
      obtain ⟨uj, huj⟩ := findByShortCode_ok_of_not_available db now cj hnodup hnav
      exact ⟨cj, uj, hgj, huj⟩
    unfold CreateShortURL
    rw [hchoose gen, hex]

/-- Witness for C5: against a store holding only the live code `taken`, with
candidates `taken` then `fresh`, the second candidate is accepted and the
written record carries it. -/
theorem createShortURL_generated_path_witness :
    wReq.customCode = ""
    ∧ (takenDB.map URL.shortCode).Nodup
    ∧ chooseCode (FindByShortCode takenDB 0) wGen wReq = .ok "fresh"
    ∧ ∃ u, (CreateShortURL (FindByShortCode takenDB 0) (fun _ => .ok (2, 0))
        wGen "http://sho.rt" wReq "1.1.1.1" 0).2.created = some u
        ∧ u.shortCode = "fresh" := by
  have h := createShortURL_generated_path takenDB 0 (fun _ => .ok (2, 0)) wGen
    "http://sho.rt" wReq "1.1.1.1" rfl (by decide)
  have hchoose : chooseCode (FindByShortCode takenDB 0) wGen wReq = .ok "fresh" := by
    refine h.2.1 1 "fresh" (by omega) ?_ rfl ?_
    · intro j hj
      have hj0 : j = 0 := by omega
      subst hj0
      exact ⟨"taken", rfl, by decide⟩
    · decide
  exact ⟨rfl, by decide, hchoose, h.2.2.1 "fresh" hchoose⟩

/-- C8: every successful `Generate` on a shortener configured with a positive
length `L` returns a string of exactly `L` characters, all drawn from the
62-character alphanumeric alphabet. -/
theorem generate_length_and_alphabet (L : Int) (src : Nat → Except Unit (Fin 62))
    (s : String) (hL : 0 < L) (h : (NewShortener L).Generate src = .ok s) :
    s.length = L.toNat ∧ ∀ c ∈ s.data, c ∈ CharSet.data := by
  have hns : NewShortener L = ⟨L⟩ := by
    unfold NewShortener
    rw [if_neg (by omega)]
  rw [hns] at h
  unfold Shortener.Generate generateRandomString at h
  cases hg : genChars src 0 L.toNat with
  | error e => rw [hg] at h; simp at h
  | ok cs =>
    rw [hg] at h
    simp only at h
    cases h
    obtain ⟨hl, hm⟩ := genChars_spec src L.toNat 0 cs hg
    exact ⟨hl, hm⟩

/-- Witness for C8 at length 6 and a constant random source. -/
theorem generate_length_and_alphabet_witness :
    (0 : Int) < 6
    ∧ (NewShortener 6).Generate (fun _ => .ok ⟨0, by decide⟩) = .ok "aaaaaa"
    ∧ ("aaaaaa".length = (6 : Int).toNat
       ∧ ∀ c ∈ "aaaaaa".data, c ∈ CharSet.data) :=
  ⟨by decide, by decide,
   generate_length_and_alphabet 6 (fun _ => .ok ⟨0, by decide⟩) "aaaaaa"
     (by decide) (by decide)⟩

/-- C10: on the no-custom-code path every repository lookup failure is read
alike as "code available": the outcome of `CreateShortURL` depends only on
whether each lookup erred (never on which of not-found, expired, or store
error it was), and any lookup error on a candidate makes the call proceed to
the store write with that candidate, so a store failure during the
uniqueness check cannot fail this path before the write. -/
theorem createShortURL_find_error_is_available
    (create : URL → Except Unit (Nat × Int)) (gen : Nat → Except Unit String)
    (domainName : String) (req : CreateURLRequest) (ip : String) (now : Int)
    (hcustom : req.customCode = "") :
    (∀ find₁ find₂ : String → Except FindErr URL,
      (∀ s, isErr (find₁ s) = isErr (find₂ s)) →
      CreateShortURL find₁ create gen domainName req ip now =
        CreateShortURL find₂ create gen domainName req ip now)
    ∧ (∀ (find : String → Except FindErr URL) (c : String) (e : FindErr),
        gen 0 = .ok c → find c = .error e →
        chooseCode find gen req = .ok c
        ∧ ∃ u, (CreateShortURL find create gen domainName req ip now).2.created
              = some u ∧ u.shortCode = c) := by
  have hchoose : ∀ find : String → Except FindErr URL,
      chooseCode find gen req = genLoop find gen 0 5 := by
    intro find; unfold chooseCode; simp [hcustom]
  constructor
  · intro find₁ find₂ hshape
    unfold CreateShortURL
    rw [hchoose, hchoose, genLoop_find_shape find₁ find₂ gen hshape 5 0]
  · intro find c e hg hf
    have hok : chooseCode find gen req = .ok c := by
      rw [hchoose]
      simp [genLoop, hg, hf]
    refine ⟨hok, ?_⟩
    unfold CreateShortURL
    rw [hok]
    dsimp only
    cases hval : create (newURL req ip c) with
    | error e2 => exact ⟨_, rfl, rfl⟩
    | ok p =>
      obtain ⟨a, b⟩ := p
      exact ⟨_, rfl, rfl⟩

/-- Witness for C10: a store that always fails with a plain store error gives
the same outcome as one that reports not-found, and the first candidate is
accepted and written. -/
theorem createShortURL_find_error_is_available_witness :
    wReq.customCode = ""
    ∧ CreateShortURL (fun _ => .error .storeError) (fun _ => .ok (1, 0))
        (fun _ => .ok "abc123") "http://sho.rt" wReq "1.1.1.1" 0
      = CreateShortURL (fun _ => .error .notFound) (fun _ => .ok (1, 0))
        (fun _ => .ok "abc123") "http://sho.rt" wReq "1.1.1.1" 0
    ∧ chooseCode (fun _ => .error .storeError) (fun _ => .ok "abc123") wReq
        = .ok "abc123"
    ∧ ∃ u, (CreateShortURL (fun _ => .error .storeError) (fun _ => .ok (1, 0))
        (fun _ => .ok "abc123") "http://sho.rt" wReq "1.1.1.1" 0).2.created
        = some u ∧ u.shortCode = "abc123" := by
  have h := createShortURL_find_error_is_available (fun _ => .ok (1, 0))
    (fun _ => .ok "abc123") "http://sho.rt" wReq "1.1.1.1" 0 rfl
  have h2 := h.2 (fun _ => .error .storeError) "abc123" .storeError rfl rfl
  exact ⟨rfl, h.1 _ _ (fun s => rfl), h2.1, h2.2⟩

end UrlShortener
